import Mathlib

/-!
# Verification of the `env` binding engine (`src/k/stack.go`, package `env`)

A shallow embedding of the environment-to-struct binding engine:
the type-parser registry (`defaultBuiltInParsers`, `set`), the field tag
resolver (`parseFieldParams`), the value resolver (`getOr`, `get`), the
recursive struct walker (`doParse`, `doParseField`, `setField`), the slice
assembler (`doParseSlice`) and map assembly (`handleMap`).

Go strings are modelled as Lean `String`, Go maps as association lists
(first match wins on lookup, mirroring unique-key Go maps), Go `error`
values as lists of error atoms (`[]` is the nil error; `errors.Join`
concatenates the non-nil arguments). Machine integers are `Int`/`Nat`
with the explicit range checks that `strconv` performs.
-/

namespace EnvSpec

/-! ## Association lists standing in for Go maps -/

/-- Go map read `m[k]` (`nil` distinguished from present): first match. -/
def alookup (m : List (String × String)) (k : String) : Option String :=
  match m with
  | [] => none
  | (k', v) :: rest => if k' = k then some v else alookup rest k

/-- Go map read `m[k]` with the zero value `""` for a missing key. -/
def alookupD (m : List (String × String)) (k : String) : String :=
  (alookup m k).getD ""

/-- Go map write `m[k] = v`: overwrite the binding, append if new. -/
def aupdate (m : List (String × String)) (k v : String) : List (String × String) :=
  match m with
  | [] => [(k, v)]
  | (k', v') :: rest => if k' = k then (k, v) :: rest else (k', v') :: aupdate rest k v

/-! ## Decimal formatting and parsing (Go `strconv`, `fmt %d`)

`goFormatNat` is Go's `strconv.FormatInt`/`Itoa` digit production for a
non-negative value (also the `%d` verb used by `optionsWithSliceEnvPrefix`).
-/

/-- The character of the decimal digit `d` (`0 ≤ d < 10`): byte `'0' + d`. -/
def digitCh (d : Nat) : Char := Char.ofNat (48 + d)

/-- Fuelled digit production: peel the least-significant digit, recurse on
`n / 10`.  The fuel only makes the recursion structural; `n + 1` units
never run out (each step at least halves `n`). -/
def goFormatNatAux (fuel : Nat) (n : Nat) : List Char :=
  match fuel with
  | 0 => []
  | fuel + 1 =>
    if n < 10 then [digitCh n]
    else goFormatNatAux fuel (n / 10) ++ [digitCh (n % 10)]

/-- Go decimal rendering of a `Nat` (`strconv.Itoa` for non-negative input),
as a character list. -/
def goFormatNat (n : Nat) : List Char := goFormatNatAux (n + 1) n

/-- Go decimal rendering of a `Nat` as a string. -/
def goFormatNatS (n : Nat) : String := ⟨goFormatNat n⟩

/-- Go decimal rendering of an `Int` (`strconv.FormatInt` base 10). -/
def goFormatInt (n : Int) : String :=
  if n < 0 then ⟨'-' :: goFormatNat n.natAbs⟩ else ⟨goFormatNat n.natAbs⟩

/-- Whether a character is an ASCII decimal digit. -/
def isDigitCh (c : Char) : Bool := 48 ≤ c.toNat && c.toNat ≤ 57

/-- Value of a run of decimal digit characters (most significant first). -/
def digitsVal (l : List Char) : Nat :=
  l.foldl (fun a c => a * 10 + (c.toNat - 48)) 0

/-- Model of `strconv.ParseUint(v, 10, bitSize)` on the character list, modelled on
the final value: Go accumulates digit by digit and reports `ErrRange` as
soon as the value exceeds `2^bitSize - 1`; an empty string or a non-digit
byte is a syntax error.  Both failure modes are collapsed into `none` (the
Go function returns a non-nil error in exactly these cases). -/
def goParseUintL (l : List Char) (bitSize : Nat) : Option Nat :=
  if l ≠ [] ∧ l.all isDigitCh then
    let n := digitsVal l
    if n ≤ 2 ^ bitSize - 1 then some n else none
  else none

/-- Model of `strconv.ParseUint(v, 10, bitSize)`. -/
def goParseUint (v : String) (bitSize : Nat) : Option Nat :=
  goParseUintL v.data bitSize

/-- Model of `strconv.ParseInt(v, 10, bitSize)` on the character list: an optional
leading sign (`s[0]` is `'+'` or `'-'`), then the unsigned digit parse,
then the signed range check `-2^(bitSize-1) ≤ n ≤ 2^(bitSize-1) - 1`. -/
def goParseIntL (l : List Char) (bitSize : Nat) : Option Int :=
  let neg : Bool := l.head? = some '-'
  let digits := if l.head? = some '-' ∨ l.head? = some '+' then l.tail else l
  if digits ≠ [] ∧ digits.all isDigitCh then
    let n : Int := digitsVal digits
    let n := if neg then -n else n
    if -(2 ^ (bitSize - 1) : Int) ≤ n ∧ n ≤ 2 ^ (bitSize - 1) - 1 then some n
    else none
  else none

/-- Model of `strconv.ParseInt(v, 10, bitSize)`. -/
def goParseInt (v : String) (bitSize : Nat) : Option Int :=
  goParseIntL v.data bitSize

/-- Model of `strconv.ParseBool`: the fixed vocabulary of accepted spellings. -/
def goParseBool (v : String) : Option Bool :=
  if v = "1" ∨ v = "t" ∨ v = "T" ∨ v = "TRUE" ∨ v = "true" ∨ v = "True" then some true
  else if v = "0" ∨ v = "f" ∨ v = "F" ∨ v = "FALSE" ∨ v = "false" ∨ v = "False" then
    some false
  else none

/-- Model of `strconv.FormatBool`. -/
def goFormatBool (b : Bool) : String := if b then "true" else "false"

/-- Model of Go `strings.Split` on character lists, for a one-character
separator (the defaults `','` and `':'` and every separator in use are one
character).  `Split` never returns an empty list: splitting the empty
string yields `[""]`. -/
def goSplitL (sep : Char) : List Char → List (List Char)
  | [] => [[]]
  | c :: rest =>
    let r := goSplitL sep rest
    if c = sep then [] :: r
    else
      match r with
      | [] => [[c]]
      | h :: t => (c :: h) :: t

/-- Model of Go `strings.Split(s, sep)` for a one-character separator. -/
def goSplitOn (s : String) (sep : Char) : List String :=
  (goSplitL sep s.data).map (fun l => ⟨l⟩)

/-- Model of Go `strings.HasPrefix(s, pfx)`. -/
def goHasPrefix (s pfx : String) : Bool := pfx.data.isPrefixOf s.data

/-- Model of Go `strings.HasSuffix(s, sfx)`. -/
def goHasSuffix (s sfx : String) : Bool := sfx.data.isSuffixOf s.data

/-! ## Go errors

A Go `error` is a list of atoms; `[]` is the nil error.  `errors.Join`
concatenates its non-nil arguments (flattening, which is how `errors.Is`
sees a joined tree).  Formatted messages (`fmt.Errorf`) are kept as
constructors carrying their arguments, so "the error mentions key `k`"
is membership of the atom carrying `k`. -/

/-- One leaf of a (possibly joined) Go error value. -/
inductive ErrAtom where
  /-- Model of `fmt.Errorf("%q is not set", key)` -/
  | varNotSetMsg (key : String)
  /-- Model of `fmt.Errorf("%q should not be empty", key)` -/
  | emptyVarMsg (key : String)
  /-- Model of `fmt.Errorf("%q not supported", tag)` -/
  | tagNotSupportedMsg (tag : String)
  /-- Model of `fmt.Errorf("parse error on field %q of type %q", name, type)` -/
  | parseErrorOnFieldMsg (fieldName typeName : String)
  /-- Model of `fmt.Errorf("no parser found for field %q of type %q", name, type)` -/
  | noParserFoundMsg (fieldName typeName : String)
  /-- Model of `fmt.Errorf("could not load %q from variable %s", filename, key)` -/
  | loadFileMsg (filename key : String)
  /-- Model of `fmt.Errorf("%q should be in key-value format", part)` -/
  | keyValFormatMsg (part : String)
  /-- sentinel `ErrParseValue` -/
  | errParseValue
  /-- sentinel `ErrStructPtr` -/
  | errStructPtr
  /-- sentinel `ErrNoSupportedTagOption` -/
  | errNoSupportedTagOption
  /-- sentinel `ErrVarIsNotSet` -/
  | errVarIsNotSet
  /-- sentinel `ErrEmptyVar` -/
  | errEmptyVar
  /-- sentinel `ErrLoadFileContent` -/
  | errLoadFileContent
  /-- sentinel `ErrNoParser` -/
  | errNoParser
  /-- a `strconv.NumError` from a built-in parser -/
  | strconvNumError
  /-- an underlying error from an I/O call or a custom parser -/
  | otherErr (s : String)
  deriving DecidableEq, Repr

/-- A Go `error` value; `[]` is `nil`. -/
abbrev GoError := List ErrAtom

/-- Model of `errors.Join`: concatenation of the non-nil arguments (nil atoms cannot
occur inside a non-empty list, so plain flattening). -/
def errJoin (es : List GoError) : GoError := es.flatten

/-! ## The reflected value universe -/

/-- Model of `reflect.Kind`, restricted to the kinds the engine dispatches on.
(The two float kinds exist in the source's parser table; float values
themselves are not modelled, see `defaultBuiltInParsers`.) -/
inductive GoKind where
  | kBool | kString
  | kInt | kInt8 | kInt16 | kInt32 | kInt64
  | kUint | kUint8 | kUint16 | kUint32 | kUint64
  | kFloat32 | kFloat64
  | kStruct | kSlice | kMap
  deriving DecidableEq, Repr

/-- A Go value as stored in a struct field.  Signed and unsigned integers
of every width are carried as `Int` (the `reflect.Value.Convert(typee)`
step adjusts only the static type).  Floating-point values are carried as
their raw text: no claim depends on float arithmetic. -/
inductive GoValue where
  | vBool (b : Bool)
  | vString (s : String)
  | vInt (n : Int)
  | vFloatRaw (s : String)
  | vSlice (elems : List GoValue)
  | vMap (entries : List (GoValue × GoValue))
  deriving Repr

/-- Equality of Go map keys.  Valid Go map key types here are comparable
scalars (slices and maps are not valid key types), so the comparison is
non-recursive. -/
def goValueEqKey (a b : GoValue) : Bool :=
  match a, b with
  | .vBool x, .vBool y => x = y
  | .vString x, .vString y => x = y
  | .vInt x, .vInt y => x = y
  | .vFloatRaw x, .vFloatRaw y => x = y
  | _, _ => false

/-- A concrete Go type: its name (for error messages and as identity in the
concrete-type tables) and its kind. -/
structure GoType where
  name : String
  kind : GoKind
  deriving DecidableEq, Repr

/-- Model of `ParserFunc`: `func(v string) (interface{}, error)`. -/
abbrev ParserF := String → Except GoError GoValue

/-- Model of `defaultBuiltInParsers`: the kind-indexed fallback table.  Bit sizes
mirror the source exactly: the machine-width `Int` and `Uint` entries call
`strconv.ParseInt`/`ParseUint` with bit size 32.  The two float entries
exist but their `strconv.ParseFloat` conversion is not modelled (they
carry the raw text); no claim below depends on them. -/
def defaultBuiltInParsers : GoKind → Option ParserF
  | .kBool => some (fun v => match goParseBool v with
      | some b => .ok (.vBool b)
      | none => .error [.strconvNumError])
  | .kString => some (fun v => .ok (.vString v))
  | .kInt => some (fun v => match goParseInt v 32 with
      | some n => .ok (.vInt n)
      | none => .error [.strconvNumError])
  | .kInt16 => some (fun v => match goParseInt v 16 with
      | some n => .ok (.vInt n)
      | none => .error [.strconvNumError])
  | .kInt32 => some (fun v => match goParseInt v 32 with
      | some n => .ok (.vInt n)
      | none => .error [.strconvNumError])
  | .kInt64 => some (fun v => match goParseInt v 64 with
      | some n => .ok (.vInt n)
      | none => .error [.strconvNumError])
  | .kInt8 => some (fun v => match goParseInt v 8 with
      | some n => .ok (.vInt n)
      | none => .error [.strconvNumError])
  | .kUint => some (fun v => match goParseUint v 32 with
      | some n => .ok (.vInt n)
      | none => .error [.strconvNumError])
  | .kUint16 => some (fun v => match goParseUint v 16 with
      | some n => .ok (.vInt n)
      | none => .error [.strconvNumError])
  | .kUint32 => some (fun v => match goParseUint v 32 with
      | some n => .ok (.vInt n)
      | none => .error [.strconvNumError])
  | .kUint64 => some (fun v => match goParseUint v 64 with
      | some n => .ok (.vInt n)
      | none => .error [.strconvNumError])
  | .kUint8 => some (fun v => match goParseUint v 8 with
      | some n => .ok (.vInt n)
      | none => .error [.strconvNumError])
  | .kFloat64 => some (fun v => .ok (.vFloatRaw v))
  | .kFloat32 => some (fun v => .ok (.vFloatRaw v))
  | _ => none

/-! ## `os.Expand` (used by the `expand` tag option) -/

/-- Model of `os.Expand`'s `isShellSpecialVar`. -/
def isShellSpecialVar (c : Char) : Bool :=
  c = '*' || c = '#' || c = '$' || c = '@' || c = '!' || c = '?' || c = '-' ||
    (48 ≤ c.toNat && c.toNat ≤ 57)

/-- Model of `os.Expand`'s `isAlphaNum`. -/
def isAlphaNum (c : Char) : Bool :=
  c = '_' || (48 ≤ c.toNat && c.toNat ≤ 57) || (97 ≤ c.toNat && c.toNat ≤ 122) ||
    (65 ≤ c.toNat && c.toNat ≤ 90)

/-- Model of `os.getShellName`: the variable name after a `$` and the number of
characters it spans.  `("", w)` with `w > 0` flags invalid syntax the
caller eats; `("", 0)` means the `$` is literal text. -/
def getShellName (s : List Char) : String × Nat :=
  match s with
  | [] => ("", 0)
  | c :: rest =>
    if c = '{' then
      match rest with
      | c₁ :: '}' :: _ =>
        if isShellSpecialVar c₁ then (⟨[c₁]⟩, 3)
        else matchBrace rest
      | _ => matchBrace rest
    else if isShellSpecialVar c then (⟨[c]⟩, 1)
    else
      let run := s.takeWhile isAlphaNum
      (⟨run⟩, run.length)
where
  /-- scan `rest` (the text after `${`) for the closing brace. -/
  matchBrace (rest : List Char) : String × Nat :=
    match rest.findIdx? (· = '}') with
    | some 0 => ("", 2)
    | some j => (⟨rest.take j⟩, j + 2)
    | none => ("", 1)

/-- Model of `os.Expand`'s scan loop on the character list, fuelled to make
the recursion structural (each step consumes at least one character, so
`length + 1` units never run out). -/
def osExpandAux (mapping : String → String) : Nat → List Char → List Char
  | 0, _ => []
  | _fuel + 1, [] => []
  | fuel + 1, c :: rest =>
    if c = '$' ∧ rest ≠ [] then
      let (name, w) := getShellName rest
      if name = "" then
        if w > 0 then osExpandAux mapping fuel (rest.drop w)
        else '$' :: osExpandAux mapping fuel rest
      else (mapping name).data ++ osExpandAux mapping fuel (rest.drop w)
    else c :: osExpandAux mapping fuel rest

/-- Model of `os.Expand` on the character list. -/
def osExpandL (mapping : String → String) (l : List Char) : List Char :=
  osExpandAux mapping (l.length + 1) l

/-- Model of `os.Expand(s, mapping)`. -/
def osExpand (s : String) (mapping : String → String) : String :=
  ⟨osExpandL mapping s.data⟩

/-! ## Field tags, parameters, options and bind state -/

/-- The declared facts about one struct field that the engine reads:
`reflect.StructField` restricted to what the walker consumes.  `tagEnv` is
`field.Tag.Get(opts.TagName)` (`""` when the tag is absent), `tagDefault`
is `field.Tag.Lookup(opts.DefaultValueTagName)`.  For container types,
`typeKey`/`typeElem` carry `sf.Type.Key()`/`sf.Type.Elem()` (meaningful
only when `type.kind` is `kMap`/`kSlice`). -/
structure GoStructField where
  name : String
  tagEnv : String
  tagDefault : Option String := none
  tagSeparator : String := ""
  tagKeyValSeparator : String := ""
  type : GoType
  typeKey : GoType := ⟨"", .kStruct⟩
  typeElem : GoType := ⟨"", .kStruct⟩
  canSet : Bool := true
  deriving Repr

/-- A struct field together with its current value. -/
structure GoField where
  sf : GoStructField
  value : GoValue
  deriving Repr

/-- A (flat) Go struct: its fields in declaration order. -/
abbrev GoStruct := List GoField

/-- Model of `Options`, restricted to the knobs the modelled walk reads.  The three
tag names are fixed at their defaults (fields above carry the tag contents
directly); `UseFieldNameByDefault` and `OnSet` are not modelled (no claim
exercises the field-name fallback, and `OnSet` is a diagnostics-only
callback).  `rawEnvVars` — shared by pointer among all derived Options in
the source — is threaded separately as `BindState`.  `fileSystem` models
`os.ReadFile` for the `file` option as a lookup. -/
structure Options where
  Environment : List (String × String)
  RequiredIfNoDef : Bool := false
  Prefix : String := ""
  FuncMap : GoType → Option ParserF := fun _ => none
  fileSystem : List (String × String) := []

/-- The mutable state crossing one bind call: the raw-value table used for
expansion, and the keys scheduled for `os.Unsetenv`. -/
structure BindState where
  rawEnvVars : List (String × String) := []
  unsetKeys : List String := []
  deriving Repr

/-- Model of `Options.getRawEnv`: the raw-value table, falling back to the
environment snapshot when the recorded value is empty. -/
def Options.getRawEnv (opts : Options) (st : BindState) (s : String) : String :=
  let val := alookupD st.rawEnvVars s
  if val = "" then alookupD opts.Environment s else val

/-- Model of `optionsWithSliceEnvPrefix`: extend the prefix with `"%d_"`. -/
def optionsWithSliceEnvPrefix (opts : Options) (index : Nat) : Options :=
  { opts with Prefix := opts.Prefix ++ goFormatNatS index ++ "_" }

/-- Model of `FieldParams`: the normalized per-field parameter record. -/
structure FieldParams where
  OwnKey : String := ""
  Key : String := ""
  DefaultValue : String := ""
  HasDefaultValue : Bool := false
  Required : Bool := false
  LoadFile : Bool := false
  Unset : Bool := false
  NotEmpty : Bool := false
  Expand : Bool := false
  Init : Bool := false
  Ignored : Bool := false
  deriving DecidableEq, Repr

/-- Model of `parseKeyForOption`: split the tag on commas into the key and the
option tokens. -/
def parseKeyForOption (key : String) : String × List String :=
  match goSplitOn key ',' with
  | [] => ("", [])
  | k :: tags => (k, tags)

/-- The option-token loop of `parseFieldParams`: each token must be in the
fixed vocabulary or the resolver fails with `ErrNoSupportedTagOption`. -/
def applyTagOptions (tags : List String) (result : FieldParams) :
    Except GoError FieldParams :=
  match tags with
  | [] => .ok result
  | tag :: rest =>
    if tag = "" then applyTagOptions rest result
    else if tag = "file" then applyTagOptions rest { result with LoadFile := true }
    else if tag = "required" then applyTagOptions rest { result with Required := true }
    else if tag = "unset" then applyTagOptions rest { result with Unset := true }
    else if tag = "notEmpty" then applyTagOptions rest { result with NotEmpty := true }
    else if tag = "expand" then applyTagOptions rest { result with Expand := true }
    else if tag = "init" then applyTagOptions rest { result with Init := true }
    else if tag = "-" then applyTagOptions rest { result with Ignored := true }
    else .error [.tagNotSupportedMsg tag, .errNoSupportedTagOption]

/-- Model of `parseFieldParams`: tag resolution.  (The `UseFieldNameByDefault`
name-derivation fallback is not modelled; `ownKey` comes from the tag.) -/
def parseFieldParams (field : GoStructField) (opts : Options) :
    Except GoError FieldParams :=
  let (ownKey, tags) := parseKeyForOption field.tagEnv
  let result : FieldParams := {
    OwnKey := ownKey
    Key := opts.Prefix ++ ownKey
    Required := opts.RequiredIfNoDef
    DefaultValue := field.tagDefault.getD ""
    HasDefaultValue := field.tagDefault.isSome
    LoadFile := false
    Unset := false
    NotEmpty := false
    Expand := false
    Init := false
    Ignored := ownKey = "-" }
  applyTagOptions tags result

/-! ## The value resolver -/

/-- Model of `getOr`: the default-value fallback.  Returns
`(value, exists, isDefault)`. -/
def getOr (key defaultValue : String) (defExists : Bool)
    (envs : List (String × String)) : String × Bool × Bool :=
  match alookup envs key with
  | none =>
    if defExists then (defaultValue, true, true)
    else ("", false, false)
  | some value =>
    if key = "" ∧ defExists then (defaultValue, true, true)
    else if value = "" ∧ defExists then (defaultValue, true, true)
    else (value, true, false)

/-- Model of `get`: value resolution for one field.  Returns the resolved raw value
(or the resolution error) and the updated bind state.  The `isDefault`
flag feeds only the unmodelled `OnSet` callback. -/
def get (fieldParams : FieldParams) (opts : Options) (st : BindState) :
    Except GoError String × BindState :=
  let (val₀, exist, _isDefault) := getOr fieldParams.Key fieldParams.DefaultValue
      fieldParams.HasDefaultValue opts.Environment
  let val := if fieldParams.Expand then osExpand val₀ (opts.getRawEnv st) else val₀
  let st := { st with rawEnvVars := aupdate st.rawEnvVars fieldParams.OwnKey val }
  let st := if fieldParams.Unset then { st with unsetKeys := fieldParams.Key :: st.unsetKeys }
    else st
  if fieldParams.Required ∧ exist = false ∧ fieldParams.OwnKey.length > 0 then
    (.error [.varNotSetMsg fieldParams.Key, .errVarIsNotSet], st)
  else if fieldParams.NotEmpty ∧ val = "" then
    (.error [.emptyVarMsg fieldParams.Key, .errEmptyVar], st)
  else if fieldParams.LoadFile ∧ val ≠ "" then
    match alookup opts.fileSystem val with
    | some contents => (.ok contents, st)
    | none =>
      (.error [.loadFileMsg val fieldParams.Key, .errLoadFileContent,
        .otherErr "read error"], st)
  else (.ok val, st)

/-! ## The parser chain (`set`) and collection assembly -/

/-- Go map write `m[k] = v` (`reflect.Value.SetMapIndex`). -/
def setMapIndex (m : List (GoValue × GoValue)) (k v : GoValue) :
    List (GoValue × GoValue) :=
  match m with
  | [] => [(k, v)]
  | (k', v') :: rest =>
    if goValueEqKey k' k then (k, v) :: rest else (k', v') :: setMapIndex rest k v

/-- The per-pair loop of `handleMap`: split each pair on the key/value
separator, parse both sides, write into the map (last write wins). -/
def handleMapParts (keyParserFunc elemParserFunc : ParserF) (kvSep : Char)
    (sf : GoStructField) (parts : List String)
    (result : List (GoValue × GoValue)) :
    Except GoError (List (GoValue × GoValue)) :=
  match parts with
  | [] => .ok result
  | part :: rest =>
    match goSplitOn part kvSep with
    | [kRaw, vRaw] =>
      match keyParserFunc kRaw with
      | .error err =>
        .error ([.noParserFoundMsg sf.name sf.type.name] ++ err ++ [.errParseValue])
      | .ok key =>
        match elemParserFunc vRaw with
        | .error err =>
          .error ([.noParserFoundMsg sf.name sf.type.name] ++ err ++ [.errParseValue])
        | .ok elem =>
          handleMapParts keyParserFunc elemParserFunc kvSep sf rest
            (setMapIndex result key elem)
    | _ =>
      .error [.noParserFoundMsg sf.name sf.type.name, .keyValFormatMsg part,
        .errParseValue]

/-- Model of `handleMap`: locate key and element parsers (concrete type, then kind),
read the separators (defaults `","` and `":"`), split and parse each pair,
build the map. -/
def handleMap (funcMap : GoType → Option ParserF) (sf : GoStructField)
    (value : String) : Except GoError GoValue :=
  let keyParserChoice :=
    match funcMap sf.typeKey with
    | some p => some p
    | none => defaultBuiltInParsers sf.typeKey.kind
  match keyParserChoice with
  | none => .error [.noParserFoundMsg sf.name sf.type.name, .errNoParser]
  | some keyParserFunc =>
    let elemParserChoice :=
      match funcMap sf.typeElem with
      | some p => some p
      | none => defaultBuiltInParsers sf.typeElem.kind
    match elemParserChoice with
    | none => .error [.noParserFoundMsg sf.name sf.type.name, .errNoParser]
    | some elemParserFunc =>
      let separator := if sf.tagSeparator = "" then ',' else sf.tagSeparator.data.headD ','
      let keyValSeparator :=
        if sf.tagKeyValSeparator = "" then ':' else sf.tagKeyValSeparator.data.headD ':'
      match handleMapParts keyParserFunc elemParserFunc keyValSeparator sf
          (goSplitOn value separator) [] with
      | .error err => .error err
      | .ok result => .ok (.vMap result)

/-- The per-element loop of `handleSlice`. -/
def handleSliceParts (parserFunc : ParserF) (sf : GoStructField)
    (parts : List String) : Except GoError (List GoValue) :=
  match parts with
  | [] => .ok []
  | part :: rest =>
    match parserFunc part with
    | .error err =>
      .error ([.parseErrorOnFieldMsg sf.name sf.type.name] ++ [.errParseValue] ++ err)
    | .ok r =>
      match handleSliceParts parserFunc sf rest with
      | .ok tail => .ok (r :: tail)
      | .error err => .error err

/-- Model of `handleSlice`: the ordinary list-splitting path for slices whose
elements are scalar-parseable.  (The `TextUnmarshaler` per-piece path and
pointer-element wrapping are outside the modelled universe; no claim
touches them.) -/
def handleSlice (funcMap : GoType → Option ParserF) (sf : GoStructField)
    (value : String) : Except GoError GoValue :=
  let separator := if sf.tagSeparator = "" then ',' else sf.tagSeparator.data.headD ','
  let parts := goSplitOn value separator
  let parserChoice :=
    match funcMap sf.typeElem with
    | some p => some p
    | none => defaultBuiltInParsers sf.typeElem.kind
  match parserChoice with
  | none => .error [.noParserFoundMsg sf.name sf.type.name, .errNoParser]
  | some parserFunc =>
    match handleSliceParts parserFunc sf parts with
    | .ok elems => .ok (.vSlice elems)
    | .error err => .error err

/-- Model of `set`: convert the resolved raw value and produce the value to write
into the field.  Lookup order as in the source: the field type's
text-unmarshal capability first, then the concrete-type table
(`funcMap`), then the kind-indexed built-in table, then the slice/map
assembly, and otherwise `ErrNoParser`.  `tuReg` is the Go method-set
lookup performed by `asTextUnmarshaler`, made explicit.  (The
pointer-unwrapping of `typee`/`fieldee` is omitted: modelled fields are
not pointers.) -/
def set (tuReg : GoType → Option ParserF) (funcMap : GoType → Option ParserF)
    (sf : GoStructField) (value : String) : Except GoError GoValue :=
  match tuReg sf.type with
  | some tm =>
    match tm value with
    | .ok v => .ok v
    | .error err =>
      .error ([.parseErrorOnFieldMsg sf.name sf.type.name, .errParseValue] ++ err)
  | none =>
    match funcMap sf.type with
    | some parserFunc =>
      match parserFunc value with
      | .ok val => .ok val
      | .error err =>
        .error ([.parseErrorOnFieldMsg sf.name sf.type.name, .errParseValue] ++ err)
    | none =>
      match defaultBuiltInParsers sf.type.kind with
      | some parserFunc =>
        match parserFunc value with
        | .ok val => .ok val
        | .error err =>
          .error ([.parseErrorOnFieldMsg sf.name sf.type.name, .errParseValue] ++ err)
      | none =>
        match sf.type.kind with
        | .kSlice => handleSlice funcMap sf value
        | .kMap => handleMap funcMap sf value
        | _ => .error [.noParserFoundMsg sf.name sf.type.name, .errNoParser]

/-! ## The walker -/

/-- Model of `setField`: the production leaf action — resolve the raw value, and if
it is non-empty parse it and write the result into the field. -/
def setField (tuReg : GoType → Option ParserF) (f : GoField) (opts : Options)
    (fieldParams : FieldParams) (st : BindState) :
    GoError × GoField × BindState :=
  match get fieldParams opts st with
  | (.error err, st) => (err, f, st)
  | (.ok value, st) =>
    if value ≠ "" then
      match set tuReg opts.FuncMap f.sf value with
      | .ok v => ([], { f with value := v }, st)
      | .error err => (err, f, st)
    else ([], f, st)

/-- Model of `doParseField` for a leaf field: skip unsettable fields, resolve tag
parameters (failing before any value resolution), skip ignored fields,
run the leaf action.  The pointer-to-struct / embedded-struct recursion
branches and the `init` nil-pointer allocation concern field shapes
outside the modelled (leaf) universe; the slice-of-structs delegation is
modelled separately by `doParseSlice`. -/
def doParseField (tuReg : GoType → Option ParserF) (f : GoField) (opts : Options)
    (st : BindState) : GoError × GoField × BindState :=
  if f.sf.canSet = false then ([], f, st)
  else
    match parseFieldParams f.sf opts with
    | .error err => (err, f, st)
    | .ok params =>
      if params.Ignored then ([], f, st)
      else setField tuReg f opts params st

/-- The field loop of `doParse`, with the `errs` accumulator made explicit.
The source reads

  `err := doParseField(...)`;
  `if err != nil { err = errors.Join(errs, err) }`

— the join is assigned back to the loop-local `err`, and `errs` is never
written, so the loop returns the `errs` it started with. -/
def doParseLoop (tuReg : GoType → Option ParserF) (opts : Options) :
    List GoField → GoError → BindState → GoError × List GoField × BindState
  | [], errs, st => (errs, [], st)
  | f :: rest, errs, st =>
    let (err, fOut, st') := doParseField tuReg f opts st
    let _joined := if err ≠ [] then errJoin [errs, err] else err
    let (errsOut, restOut, stOut) := doParseLoop tuReg opts rest errs st'
    (errsOut, fOut :: restOut, stOut)

/-- Model of `doParse`: walk the fields of one struct. -/
def doParse (tuReg : GoType → Option ParserF) (ref : GoStruct) (opts : Options)
    (st : BindState) : GoError × GoStruct × BindState :=
  doParseLoop tuReg opts ref [] st

/-! ## The slice assembler -/

/-- The index-qualified prefix probed for index `i`. -/
def idxPrefix (pfx : String) (i : Nat) : String := pfx ++ goFormatNatS i ++ "_"

/-- One probe: does any collected environment key carry the
index-qualified prefix? -/
def anyIdxMatch (environments : List String) (pfx : String) (i : Nat) : Bool :=
  environments.any (fun variable₀ => goHasPrefix variable₀ (idxPrefix pfx i))

/-- The instance-counting loop of `doParseSlice`: probe indices 0, 1, 2, …
and stop at the first index no environment key carries.  The loop is
fuelled; `sliceCount_spec` shows the fuel used by `doParseSlice` never
runs out. -/
def sliceCountLoop (environments : List String) (pfx : String) :
    Nat → Nat → Nat
  | 0, counter => counter
  | fuel + 1, counter =>
    if anyIdxMatch environments pfx counter then
      sliceCountLoop environments pfx fuel (counter + 1)
    else counter

/-- The element loop of `doParseSlice`: `reflect.MakeSlice` zero-fills, the
first `initialized` positions are overwritten from the existing slice,
then each element is walked with an index-qualified prefix; a walk error
aborts immediately (it is returned, not joined). -/
def buildSliceItems (tuReg : GoType → Option ParserF) (opts : Options)
    (ref : List GoStruct) (elemZero : GoStruct) (initialized : Nat) :
    Nat → Nat → BindState → GoError × List GoStruct × BindState
  | 0, _i, st => ([], [], st)
  | remaining + 1, i, st =>
    let item := if i < initialized then ref.getD i elemZero else elemZero
    let (err, itemOut, st') := doParse tuReg item (optionsWithSliceEnvPrefix opts i) st
    if err ≠ [] then (err, [], st')
    else
      let (errTail, tail, st'') :=
        buildSliceItems tuReg opts ref elemZero initialized remaining (i + 1) st'
      (errTail, itemOut :: tail, st'')

/-- Model of `doParseSlice`: normalize the prefix to end in `'_'`, collect the
environment keys carrying it, count instances by index probing, rebuild
the slice (reusing pre-existing elements position-wise) and walk each
element.  With no matching key, or an empty rebuilt slice, the target is
left unchanged. -/
def doParseSlice (tuReg : GoType → Option ParserF) (ref : List GoStruct)
    (elemZero : GoStruct) (opts₀ : Options) (st : BindState) :
    GoError × List GoStruct × BindState :=
  let opts := if opts₀.Prefix ≠ "" ∧ ¬ (goHasSuffix opts₀.Prefix "_") then
      { opts₀ with Prefix := opts₀.Prefix ++ "_" }
    else opts₀
  let environments := (opts.Environment.map Prod.fst).filter
    (fun environment => goHasPrefix environment opts.Prefix)
  if environments ≠ [] then
    let counter := sliceCountLoop environments opts.Prefix (environments.length + 1) 0
    let initialized := ref.length
    let capacity := if counter > initialized then counter else initialized
    match buildSliceItems tuReg opts ref elemZero initialized capacity 0 st with
    | (err, result, st') =>
      if err ≠ [] then (err, ref, st')
      else if result.length > 0 then ([], result, st') else ([], ref, st')
  else ([], ref, st)


/-! ## Concrete fixtures for the claim-level statements -/

/-- No type in scope implements `encoding.TextUnmarshaler`. -/
def noTU : GoType → Option ParserF := fun _ => none

/-- The Go `int` type. -/
def tInt : GoType := ⟨"int", .kInt⟩

/-- The Go `string` type. -/
def tString : GoType := ⟨"string", .kString⟩

/-- A field `Port int` tagged `env:"PORT,required"`. -/
def sfPort : GoStructField := { name := "Port", tagEnv := "PORT,required", type := tInt }

/-- A field `Host string` tagged `env:"HOST,required"`. -/
def sfHost : GoStructField := { name := "Host", tagEnv := "HOST,required", type := tString }

/-- An options bundle over the empty environment snapshot. -/
def emptyEnvOpts : Options := { Environment := [] }

/-- A field `S string` tagged `env:"KEY"` with declared default `""`
(`envDefault:""`). -/
def sfSDef : GoStructField :=
  { name := "S", tagEnv := "KEY", tagDefault := some "", type := tString }

/-- A field `N int` tagged `env:"KEY"` with declared default `"8080"`. -/
def sfNDef : GoStructField :=
  { name := "N", tagEnv := "KEY", tagDefault := some "8080", type := tInt }

/-- A field tagged `env:"KEY,bogus"`: an option token outside the
vocabulary. -/
def sfBogus : GoStructField := { name := "F", tagEnv := "KEY,bogus", type := tString }

/-- The fixed vocabulary of tag option tokens (the empty token is
skipped by the loop). -/
def tagVocab : List String := ["", "file", "required", "unset", "notEmpty", "expand", "init", "-"]

/-- A field `A string` tagged `env:"A"`. -/
def sfA : GoStructField := { name := "A", tagEnv := "A", type := tString }

/-- A field `B string` tagged `env:"B,expand"`. -/
def sfB : GoStructField := { name := "B", tagEnv := "B,expand", type := tString }

/-- An options bundle with prefix `P_` and the two keys of the expansion
scenario: `P_A=8080` and `P_B=port-${A}`. -/
def optsExpand : Options :=
  { Environment := [("P_A", "8080"), ("P_B", "port-${A}")]
    Prefix := "P_" }

/-- A field `Name string` tagged `env:"NAME"`. -/
def sfName : GoStructField := { name := "Name", tagEnv := "NAME", type := tString }

/-- The zero value of the element struct `struct { Name string }`. -/
def elemZeroItems : GoStruct := [⟨sfName, .vString ""⟩]

/-- An options bundle with nested prefix `ITEMS_` and the two keys of the
slice-discovery scenario. -/
def optsItems : Options :=
  { Environment := [("ITEMS_0_NAME", "a"), ("ITEMS_1_NAME", "b")]
    Prefix := "ITEMS_" }

/-- A field `M map[string]int` with default separators. -/
def sfMap : GoStructField :=
  { name := "M"
    tagEnv := "M"
    type := ⟨"mapStringInt", .kMap⟩
    typeKey := tString
    typeElem := tInt }

/-- A concrete type implementing the text-unmarshal capability. -/
def tTU : GoType := ⟨"TU", .kStruct⟩

/-- A text-unmarshal registry in which `TU` unmarshals every input to the
marker value `"via-text-unmarshal"`. -/
def tuRegTU : GoType → Option ParserF :=
  fun t => if t.name = "TU" then some (fun _ => .ok (.vString "via-text-unmarshal")) else none

/-- A concrete-type table in which `TU` parses every input to the marker
value `"via-funcmap"`. -/
def funcMapTU : GoType → Option ParserF :=
  fun t => if t.name = "TU" then some (fun _ => .ok (.vString "via-funcmap")) else none

/-- A field of type `TU`. -/
def sfTU : GoStructField := { name := "F", tagEnv := "KEY", type := tTU }

/-- The parameter record `parseFieldParams` derives for `sfA` under prefix
`P_`. -/
def fpA : FieldParams := { OwnKey := "A", Key := "P_A" }

/-- The parameter record `parseFieldParams` derives for `sfB` under prefix
`P_`. -/
def fpB : FieldParams := { OwnKey := "B", Key := "P_B", Expand := true }

/-- The parameter record of a field with own key `KEY` and declared
default `8080`. -/
def fpDefault8080 : FieldParams :=
  { OwnKey := "KEY", Key := "KEY", DefaultValue := "8080", HasDefaultValue := true }

/-- Go map lookup on the modelled map value (`m[k]`). -/
def mapGetVal (m : List (GoValue × GoValue)) (k : GoValue) : Option GoValue :=
  match m with
  | [] => none
  | (k', v) :: rest => if goValueEqKey k' k then some v else mapGetVal rest k

/-! # Theorems -/

/-! ### Round-trip facts about the decimal rendering -/

theorem digitCh_toNat {d : Nat} (h : d < 10) : (digitCh d).toNat = 48 + d := by
  interval_cases d <;> decide

theorem isDigitCh_digitCh {d : Nat} (h : d < 10) : isDigitCh (digitCh d) = true := by
  interval_cases d <;> decide

theorem digitsVal_append (l₁ l₂ : List Char) :
    digitsVal (l₁ ++ l₂) = l₂.foldl (fun a c => a * 10 + (c.toNat - 48)) (digitsVal l₁) := by
  simp [digitsVal, List.foldl_append]

/-- With enough fuel, the digit production is a non-empty all-digit run
whose value is `n`. -/
theorem goFormatNatAux_spec :
    ∀ (fuel n : Nat), n < fuel →
    goFormatNatAux fuel n ≠ [] ∧ (goFormatNatAux fuel n).all isDigitCh = true ∧
      digitsVal (goFormatNatAux fuel n) = n := by
  intro fuel
  induction fuel with
  | zero => intro n hn; omega
  | succ fuel ih =>
    intro n hn
    by_cases h10 : n < 10
    · rw [goFormatNatAux, if_pos h10]
      exact ⟨by simp, by simp [isDigitCh_digitCh h10],
        by simp [digitsVal, digitCh_toNat h10]⟩
    · rw [goFormatNatAux, if_neg h10]
      have hdiv : n / 10 < n := Nat.div_lt_self (by omega) (by omega)
      have hrec := ih (n / 10) (by omega)
      refine ⟨by simp, ?_, ?_⟩
      · rw [List.all_append]
        simp [hrec.2.1, isDigitCh_digitCh (Nat.mod_lt n (by omega))]
      · rw [digitsVal_append, hrec.2.2]
        simp only [List.foldl_cons, List.foldl_nil]
        rw [digitCh_toNat (Nat.mod_lt n (by omega))]
        omega

theorem goFormatNat_ne_nil (n : Nat) : goFormatNat n ≠ [] :=
  (goFormatNatAux_spec (n + 1) n (by omega)).1

theorem goFormatNat_all_digits (n : Nat) : (goFormatNat n).all isDigitCh = true :=
  (goFormatNatAux_spec (n + 1) n (by omega)).2.1

theorem digitsVal_goFormatNat (n : Nat) : digitsVal (goFormatNat n) = n :=
  (goFormatNatAux_spec (n + 1) n (by omega)).2.2

/-- The head of a decimal rendering is a digit, hence not a sign. -/
theorem goFormatNat_head_ne (n : Nat) {c : Char} (hc : isDigitCh c = false) :
    ¬ (goFormatNat n).head? = some c := by
  have hall := goFormatNat_all_digits n
  cases hfmt : goFormatNat n with
  | nil => simp
  | cons d rest =>
    rw [hfmt] at hall
    simp only [List.all_cons, Bool.and_eq_true] at hall
    simp only [List.head?_cons, Option.some.injEq]
    intro hd
    rw [hd] at hall
    rw [hc] at hall
    exact absurd hall.1 (by decide)

/-- Round trip for the unsigned parse: parsing the canonical rendering of a
value within the width recovers the value. -/
theorem goParseUint_goFormatNat {n : Nat} {bitSize : Nat} (h : n ≤ 2 ^ bitSize - 1) :
    goParseUint (goFormatNatS n) bitSize = some n := by
  show goParseUintL (goFormatNat n) bitSize = some n
  rw [goParseUintL]
  simp [goFormatNat_ne_nil, goFormatNat_all_digits, digitsVal_goFormatNat, h]

/-- Round trip for the signed parse: parsing the canonical rendering of a
value within the signed width recovers the value. -/
theorem goParseInt_goFormatInt {n : Int} {bitSize : Nat}
    (hlo : -(2 ^ (bitSize - 1) : Int) ≤ n) (hhi : n ≤ 2 ^ (bitSize - 1) - 1) :
    goParseInt (goFormatInt n) bitSize = some n := by
  by_cases hneg : n < 0
  · show goParseIntL (goFormatInt n).data bitSize = some n
    rw [goFormatInt, if_pos hneg]
    show goParseIntL ('-' :: goFormatNat n.natAbs) bitSize = some n
    simp only [goParseIntL]
    simp [goFormatNat_ne_nil, goFormatNat_all_digits, digitsVal_goFormatNat]
    rw [abs_of_nonpos (by omega)]
    generalize hM : ((2 : Int) ^ (bitSize - 1)) = M at hlo hhi ⊢
    omega
  · show goParseIntL (goFormatInt n).data bitSize = some n
    rw [goFormatInt, if_neg hneg]
    show goParseIntL (goFormatNat n.natAbs) bitSize = some n
    have hm := goFormatNat_head_ne n.natAbs (c := '-') (by decide)
    have hp := goFormatNat_head_ne n.natAbs (c := '+') (by decide)
    simp only [goParseIntL]
    simp [hm, hp, goFormatNat_ne_nil, goFormatNat_all_digits, digitsVal_goFormatNat]
    rw [abs_of_nonneg (by omega)]
    generalize hM : ((2 : Int) ^ (bitSize - 1)) = M at hlo hhi ⊢
    omega


/-! ## Shared helper lemmas -/

/-- The walk loop returns the `errs` accumulator it started with: the
per-field error is joined into the dead loop-local `err`, never into
`errs`. -/
theorem doParseLoop_fst (tuReg : GoType → Option ParserF) (opts : Options) :
    ∀ (fields : List GoField) (errs : GoError) (st : BindState),
    (doParseLoop tuReg opts fields errs st).1 = errs := by
  intro fields
  induction fields with
  | nil => intro errs st; rfl
  | cons f rest ih =>
    intro errs st
    rcases hd : doParseField tuReg f opts st with ⟨err, fOut, st'⟩
    rcases hl : doParseLoop tuReg opts rest errs st' with ⟨errsOut, restOut, stOut⟩
    have := ih errs st'
    rw [hl] at this
    simp only [doParseLoop, hd, hl]
    exact this

/-- Whatever the fields resolve to, `doParse` returns the nil error. -/
theorem doParse_fst_nil (tuReg : GoType → Option ParserF) (fields : List GoField)
    (opts : Options) (st : BindState) : (doParse tuReg fields opts st).1 = [] :=
  doParseLoop_fst tuReg opts fields [] st

/-- Updating an association list binds the written key. -/
theorem alookup_aupdate_self (m : List (String × String)) (k v : String) :
    alookup (aupdate m k v) k = some v := by
  induction m with
  | nil => simp [aupdate, alookup]
  | cons p rest ih =>
    rcases p with ⟨k', v'⟩
    by_cases h : k' = k
    · simp [aupdate, alookup, h]
    · simp [aupdate, alookup, h, ih]

/-- Updating an association list leaves other keys alone. -/
theorem alookup_aupdate_ne (m : List (String × String)) (k v s : String)
    (h : s ≠ k) : alookup (aupdate m k v) s = alookup m s := by
  have hks : ¬ k = s := fun hh => h hh.symm
  induction m with
  | nil => simp [aupdate, alookup, hks]
  | cons p rest ih =>
    rcases p with ⟨k', v'⟩
    by_cases hk : k' = k
    · subst hk
      simp [aupdate, alookup, hks]
    · by_cases hs : k' = s
      · simp [aupdate, alookup, hk, hs, h]
      · simp [aupdate, alookup, hk, hs, ih]

/-! ## C1 and C2: per-field errors versus the walk's combined error -/

/-- C1.  A struct with one `required` field `Port` (key `PORT`) bound
against the empty environment: the field-level resolution error does name
the fully-qualified key `PORT` (and doParseField returns it), but the
struct walk `doParse` — hence `Parse` — returns the nil error: the
accumulator is never written (`err = errors.Join(errs, err)` updates the
loop-local `err`), so the claimed non-nil combined error never reaches
the caller. -/
theorem c1_required_missing_error_is_dropped :
    (get { OwnKey := "PORT", Key := "PORT", Required := true } emptyEnvOpts {}).1
        = .error [.varNotSetMsg "PORT", .errVarIsNotSet]
    ∧ (doParseField noTU ⟨sfPort, .vInt 0⟩ emptyEnvOpts {}).1
        = [.varNotSetMsg "PORT", .errVarIsNotSet]
    ∧ (doParse noTU [⟨sfPort, .vInt 0⟩] emptyEnvOpts {}).1 = [] := by
  refine ⟨rfl, rfl, rfl⟩

/-- C2.  Two sibling `required` fields both fail resolution against the
empty environment — each `doParseField` returns its own error — yet the
walk of the two-field struct returns the nil error rather than the join
of the two: every per-field error is silently dropped (`doParse` never
returns a non-nil error at all). -/
theorem c2_sibling_errors_not_joined :
    (doParseField noTU ⟨sfPort, .vInt 0⟩ emptyEnvOpts {}).1
        = [.varNotSetMsg "PORT", .errVarIsNotSet]
    ∧ (doParseField noTU ⟨sfHost, .vString ""⟩ emptyEnvOpts
          (doParseField noTU ⟨sfPort, .vInt 0⟩ emptyEnvOpts {}).2.2).1
        = [.varNotSetMsg "HOST", .errVarIsNotSet]
    ∧ (doParse noTU [⟨sfPort, .vInt 0⟩, ⟨sfHost, .vString ""⟩] emptyEnvOpts {}).1 = []
    ∧ ∀ (tuReg : GoType → Option ParserF) (fields : List GoField) (opts : Options)
        (st : BindState), (doParse tuReg fields opts st).1 = [] := by
  exact ⟨rfl, rfl, rfl, doParse_fst_nil⟩

/-! ## C7: unknown tag option -/

/-- C7.  An option token outside the vocabulary (`env:"KEY,bogus"`) makes
tag resolution fail with `ErrNoSupportedTagOption` naming the token, and
`doParseField` returns that error for every options bundle, prior state
and field value — the field and the bind state come back untouched, so no
environment lookup and no side effect happen for that field.  The bind as
a whole, however, does not fail: the walk drops the error (the C1/C2
accumulator slip), so `Parse` reports success where the claim says it
fails. -/
theorem c7_unsupported_tag_option :
    parseFieldParams sfBogus emptyEnvOpts
        = .error [.tagNotSupportedMsg "bogus", .errNoSupportedTagOption]
    ∧ (∀ (tuReg : GoType → Option ParserF) (opts : Options) (st : BindState) (v : GoValue),
        doParseField tuReg ⟨sfBogus, v⟩ opts st
          = ([.tagNotSupportedMsg "bogus", .errNoSupportedTagOption], ⟨sfBogus, v⟩, st))
    ∧ (doParse noTU [⟨sfBogus, .vString ""⟩] emptyEnvOpts {}).1 = [] := by
  refine ⟨rfl, fun tuReg opts st v => rfl, rfl⟩

/-! ## C10: an empty resolved value writes nothing -/

/-- C10.  If value resolution succeeds with the empty string as the final
resolved value, the production leaf action writes nothing: the field
comes back exactly as it went in (only the resolution side effects on the
raw-value table happen). -/
theorem c10_empty_resolved_value_writes_nothing
    (tuReg : GoType → Option ParserF) (f : GoField) (opts : Options)
    (fieldParams : FieldParams) (st : BindState)
    (h : (get fieldParams opts st).1 = .ok "") :
    setField tuReg f opts fieldParams st = ([], f, (get fieldParams opts st).2) := by
  rcases hg : get fieldParams opts st with ⟨r, st'⟩
  rw [hg] at h
  simp only at h
  subst h
  simp [setField, hg]

/-- Witness for C10: key `A` absent and no default — resolution yields the
empty string and the pre-populated field value survives. -/
theorem c10_witness :
    setField noTU ⟨sfA, .vString "kept"⟩ emptyEnvOpts { OwnKey := "A", Key := "A" } {}
      = ([], ⟨sfA, .vString "kept"⟩,
        (get { OwnKey := "A", Key := "A" } emptyEnvOpts {}).2) :=
  c10_empty_resolved_value_writes_nothing noTU ⟨sfA, .vString "kept"⟩ emptyEnvOpts
    { OwnKey := "A", Key := "A" } {} (by rfl)

/-! ## C4: declared defaults -/

/-- C4, counterexample to the claim as stated.  A string field with
declared default `""` and pre-populated value `"x"`, bound against an
environment missing its key: resolution does yield the declared default
(marked is-default) and that default parses to the value `""`, but the
field ends up still holding `"x"`, not the parsed default — `setField`
only writes non-empty resolved values. -/
theorem c4_empty_default_not_written :
    getOr "KEY" "" true [] = ("", true, true)
    ∧ set noTU emptyEnvOpts.FuncMap sfSDef "" = .ok (.vString "")
    ∧ (doParseField noTU ⟨sfSDef, .vString "x"⟩ emptyEnvOpts {}).2.1.value = .vString "x"
    ∧ GoValue.vString "x" ≠ GoValue.vString "" := by
  refine ⟨rfl, rfl, rfl, by simp⟩

/-- C4 as amended.  For a field with a declared default and an absent or
empty-string environment value, resolution yields the declared default
marked is-default; if the default is non-empty (and parses), the field
ends up holding the parsed default; an empty-string default leaves the
field unchanged. -/
theorem c4_default_applied (tuReg : GoType → Option ParserF) (f : GoField)
    (opts : Options) (fp : FieldParams) (st : BindState) (v : GoValue)
    (hdef : fp.HasDefaultValue = true)
    (habsent : alookup opts.Environment fp.Key = none
      ∨ alookup opts.Environment fp.Key = some "")
    (hexp : fp.Expand = false) (hfile : fp.LoadFile = false) :
    getOr fp.Key fp.DefaultValue fp.HasDefaultValue opts.Environment
        = (fp.DefaultValue, true, true)
    ∧ (fp.DefaultValue ≠ "" → set tuReg opts.FuncMap f.sf fp.DefaultValue = .ok v →
        (setField tuReg f opts fp st).1 = []
          ∧ (setField tuReg f opts fp st).2.1 = { f with value := v })
    ∧ (fp.DefaultValue = "" → fp.NotEmpty = false →
        setField tuReg f opts fp st = ([], f, (get fp opts st).2)) := by
  have h1 : getOr fp.Key fp.DefaultValue fp.HasDefaultValue opts.Environment
      = (fp.DefaultValue, true, true) := by
    rcases habsent with h | h
    · simp [getOr, h, hdef]
    · by_cases hkey : fp.Key = ""
      · rw [hkey] at h
        simp [getOr, h, hdef, hkey]
      · simp [getOr, h, hdef, hkey]
  refine ⟨h1, ?_, ?_⟩
  · intro hne hset
    have hget1 : (get fp opts st).1 = .ok fp.DefaultValue := by
      simp [get, h1, hexp, hfile, hne]
    rcases hg2 : get fp opts st with ⟨r, st'⟩
    rw [hg2] at hget1
    simp only at hget1
    subst hget1
    constructor
    · simp [setField, hg2, hne, hset]
    · simp [setField, hg2, hne, hset]
  · intro hempty hnotEmpty
    rw [hempty] at h1
    have hget1 : (get fp opts st).1 = .ok "" := by
      simp [get, h1, hexp, hfile, hempty, hnotEmpty]
    rcases hg2 : get fp opts st with ⟨r, st'⟩
    rw [hg2] at hget1
    simp only at hget1
    subst hget1
    simp [setField, hg2]

/-- Witness for C4 as amended: int field, declared default `8080`, empty
environment — the field ends up holding the parsed default `8080`. -/
theorem c4_witness :
    (setField noTU ⟨sfNDef, .vInt 0⟩ emptyEnvOpts fpDefault8080 {}).1 = []
    ∧ (setField noTU ⟨sfNDef, .vInt 0⟩ emptyEnvOpts fpDefault8080 {}).2.1
        = ⟨sfNDef, .vInt 8080⟩ :=
  (c4_default_applied noTU ⟨sfNDef, .vInt 0⟩ emptyEnvOpts fpDefault8080 {} (.vInt 8080)
    rfl (Or.inl rfl) rfl rfl).2.1 (by decide) (by rfl)

/-! ## C8: expansion against the raw-value table -/

/-- C8.  Under prefix `P_`, field A (tag `env:"A"`) resolves to `8080`
and the value is recorded in the raw-value table under the OWN key `A`,
not the fully-qualified `P_A`; field B (tag `env:"B,expand"`), whose raw
value is `port-${A}`, then resolves to `port-8080` by substituting the
recorded value.  In general `get` records the resolved value in the
raw-value table under the field's own key. -/
theorem c8_expand_uses_own_key_table :
    parseFieldParams sfA optsExpand = .ok fpA
    ∧ parseFieldParams sfB optsExpand = .ok fpB
    ∧ (get fpA optsExpand {}).1 = .ok "8080"
    ∧ alookup (get fpA optsExpand {}).2.rawEnvVars "A" = some "8080"
    ∧ alookup (get fpA optsExpand {}).2.rawEnvVars "P_A" = none
    ∧ (get fpB optsExpand (get fpA optsExpand {}).2).1 = .ok "port-8080"
    ∧ ∀ (fp : FieldParams) (opts : Options) (st : BindState),
        ∃ val, (get fp opts st).2.rawEnvVars = aupdate st.rawEnvVars fp.OwnKey val := by
  refine ⟨rfl, rfl, rfl, rfl, rfl, rfl, ?_⟩
  intro fp opts st
  rcases hgo : getOr fp.Key fp.DefaultValue fp.HasDefaultValue opts.Environment
    with ⟨val₀, exist, isDef⟩
  refine ⟨if fp.Expand then osExpand val₀ (opts.getRawEnv st) else val₀, ?_⟩
  simp only [get, hgo]
  split_ifs <;> first
    | rfl
    | (split <;> rfl)

/-! ## C9: map assembly -/

/-- Appending part lists composes `handleMapParts` sequentially. -/
theorem handleMapParts_append (kp ep : ParserF) (sep : Char) (sf : GoStructField) :
    ∀ (ps qs : List String) (acc : List (GoValue × GoValue)),
    handleMapParts kp ep sep sf (ps ++ qs) acc =
      (match handleMapParts kp ep sep sf ps acc with
        | .ok m => handleMapParts kp ep sep sf qs m
        | .error e => .error e) := by
  intro ps
  induction ps with
  | nil => intro qs acc; rfl
  | cons p rest ih =>
    intro qs acc
    simp only [List.cons_append, handleMapParts]
    rcases goSplitOn p sep with _ | ⟨k₁, _ | ⟨v₁, _ | _⟩⟩ <;> try rfl
    rcases hkp : kp k₁ with err | key
    · simp [hkp]
    · rcases hep : ep v₁ with err | elem
      · simp [hkp, hep]
      · simp only [hkp, hep]
        exact ih qs (setMapIndex acc key elem)

/-- Writing a key then reading it back yields the written value. -/
theorem mapGetVal_setMapIndex_self (m : List (GoValue × GoValue)) (k v : GoValue)
    (hk : goValueEqKey k k = true) : mapGetVal (setMapIndex m k v) k = some v := by
  induction m with
  | nil => simp [setMapIndex, mapGetVal, hk]
  | cons p rest ih =>
    rcases p with ⟨k', v'⟩
    by_cases h : goValueEqKey k' k
    · simp [setMapIndex, mapGetVal, h, hk]
    · simp [setMapIndex, mapGetVal, h, ih]

/-- C9.  With the default separators, the raw value `a:1,b:2` for a
`map[string]int` field parses into the mapping that sends `a` to 1 and
`b` to 2: the value is split on commas into pairs, each pair on a colon,
each side parsed with its respective parser; and when the same key
appears in several pairs, the last occurrence's value wins — concretely
for `a:1,a:2`, and in general for any pair list whose last entry parses
to `(k, v)`. -/
theorem c9_map_assembly :
    handleMap (fun _ => none) sfMap "a:1,b:2"
        = .ok (.vMap [(.vString "a", .vInt 1), (.vString "b", .vInt 2)])
    ∧ mapGetVal [(.vString "a", .vInt 1), (.vString "b", .vInt 2)] (.vString "a")
        = some (.vInt 1)
    ∧ mapGetVal [(.vString "a", .vInt 1), (.vString "b", .vInt 2)] (.vString "b")
        = some (.vInt 2)
    ∧ handleMap (fun _ => none) sfMap "a:1,a:2" = .ok (.vMap [(.vString "a", .vInt 2)])
    ∧ ∀ (kp ep : ParserF) (sep : Char) (sf : GoStructField) (ps : List String)
        (p : String) (acc m : List (GoValue × GoValue)) (kRaw vRaw : String)
        (k v : GoValue),
        handleMapParts kp ep sep sf (ps ++ [p]) acc = .ok m →
        goSplitOn p sep = [kRaw, vRaw] →
        kp kRaw = .ok k → ep vRaw = .ok v → goValueEqKey k k = true →
        mapGetVal m k = some v := by
  refine ⟨rfl, rfl, rfl, rfl, ?_⟩
  intro kp ep sep sf ps p acc m kRaw vRaw k v hparts hsp hk hv hkk
  rw [handleMapParts_append] at hparts
  rcases hps : handleMapParts kp ep sep sf ps acc with e | m₀ <;> rw [hps] at hparts
  · exact absurd hparts (by simp)
  · simp only [handleMapParts, hsp, hk, hv] at hparts
    have hm : m = setMapIndex m₀ k v := by
      cases hparts
      rfl
    rw [hm]
    exact mapGetVal_setMapIndex_self m₀ k v hkk

/-- Witness for the last-write-wins component of C9, at the concrete
duplicate-key input `a:1,a:2` with the built-in string and int parsers. -/
theorem c9_witness :
    mapGetVal [(.vString "a", .vInt 2)] (.vString "a") = some (.vInt 2) :=
  c9_map_assembly.2.2.2.2 (fun v => .ok (.vString v))
    (fun v => match goParseInt v 32 with
      | some n => .ok (.vInt n)
      | none => .error [.strconvNumError])
    ':' sfMap ["a:1"] "a:2" [] [(.vString "a", .vInt 2)] "a" "2"
    (.vString "a") (.vInt 2) (by rfl) (by rfl) (by rfl) (by rfl) (by rfl)

/-! ## C3: parser lookup order -/

/-- C3, counterexample to the claim as stated.  A type with both a
text-unmarshal capability and a concrete-type (`FuncMap`) parser: `set`
uses the text unmarshaler, not the concrete-type parser — the
concrete-type override does NOT take priority over text-unmarshaling. -/
theorem c3_text_unmarshal_beats_funcmap :
    set tuRegTU funcMapTU sfTU "x" = .ok (.vString "via-text-unmarshal")
    ∧ (funcMapTU sfTU.type).map (fun p => p "x") = some (.ok (.vString "via-funcmap"))
    ∧ GoValue.vString "via-text-unmarshal" ≠ GoValue.vString "via-funcmap" := by
  refine ⟨rfl, rfl, by simp⟩

/-- C3 as amended.  The parser for a leaf value is located in this order:
the field type's text-unmarshal capability first, then the concrete-type
override table, then the kind-indexed built-in table; only if all three
are absent (and the field is not routed to slice/map assembly) does
assignment fail with `ErrNoParser`.  In particular a concrete-type parser
takes priority over the kind fallback, but text-unmarshaling takes
priority over both. -/
theorem c3_parser_lookup_order (tuReg funcMap : GoType → Option ParserF)
    (sf : GoStructField) (value : String) :
    (∀ tm, tuReg sf.type = some tm →
      set tuReg funcMap sf value =
        (match tm value with
          | .ok v => .ok v
          | .error err =>
            .error ([.parseErrorOnFieldMsg sf.name sf.type.name, .errParseValue] ++ err)))
    ∧ (tuReg sf.type = none → ∀ p, funcMap sf.type = some p →
      set tuReg funcMap sf value =
        (match p value with
          | .ok v => .ok v
          | .error err =>
            .error ([.parseErrorOnFieldMsg sf.name sf.type.name, .errParseValue] ++ err)))
    ∧ (tuReg sf.type = none → funcMap sf.type = none →
      ∀ p, defaultBuiltInParsers sf.type.kind = some p →
      set tuReg funcMap sf value =
        (match p value with
          | .ok v => .ok v
          | .error err =>
            .error ([.parseErrorOnFieldMsg sf.name sf.type.name, .errParseValue] ++ err)))
    ∧ (tuReg sf.type = none → funcMap sf.type = none →
      defaultBuiltInParsers sf.type.kind = none →
      sf.type.kind ≠ .kSlice → sf.type.kind ≠ .kMap →
      set tuReg funcMap sf value
        = .error [.noParserFoundMsg sf.name sf.type.name, .errNoParser]) := by
  refine ⟨?_, ?_, ?_, ?_⟩
  · intro tm htm
    simp only [set, htm]
  · intro htu p hp
    simp only [set, htu, hp]
  · intro htu hfm p hp
    simp only [set, htu, hfm, hp]
  · intro htu hfm hbi hslice hmap
    simp only [set, htu, hfm, hbi]

/-- Witness for C3 as amended: the text-unmarshal tier fires for `sfTU`. -/
theorem c3_witness :
    set tuRegTU funcMapTU sfTU "y" = .ok (.vString "via-text-unmarshal") :=
  (c3_parser_lookup_order tuRegTU funcMapTU sfTU "y").1
    (fun _ => .ok (.vString "via-text-unmarshal")) rfl

/-! ## C6: round-trip of the built-in scalar parsers -/

/-- C6, counterexample to the claim as stated.  On a 64-bit platform the
machine-width `int` holds `2147483648 = 2^31`; its canonical decimal
formatting is `"2147483648"`, yet the built-in parser for the `Int` kind
calls `strconv.ParseInt` with bit size 32 and rejects it — while the
`Int64` entry accepts the very same text.  The machine-width `Uint` entry
likewise rejects `2^32`. -/
theorem c6_machine_int_parser_is_32bit :
    goFormatInt 2147483648 = "2147483648"
    ∧ (defaultBuiltInParsers .kInt).map (fun p => p "2147483648")
        = some (.error [.strconvNumError])
    ∧ (defaultBuiltInParsers .kInt64).map (fun p => p "2147483648")
        = some (.ok (.vInt 2147483648))
    ∧ (defaultBuiltInParsers .kUint).map (fun p => p "4294967296")
        = some (.error [.strconvNumError])
    ∧ (defaultBuiltInParsers .kUint64).map (fun p => p "4294967296")
        = some (.ok (.vInt 4294967296)) := by
  refine ⟨by decide, rfl, rfl, rfl, rfl⟩

/-- C6 as amended.  For bool, string and the fixed-width integer kinds,
parsing the canonical formatting of any value of the kind with the
kind's built-in parser succeeds and yields an equal value; for the
machine-width `int` and `uint` kinds the built-in parsers impose 32-bit
range checks, so the round-trip holds for values within the 32-bit
range.  (The two float kinds are outside this embedding.) -/
theorem c6_builtin_round_trip :
    (∀ b : Bool, (defaultBuiltInParsers .kBool).map (fun p => p (goFormatBool b))
        = some (.ok (.vBool b)))
    ∧ (∀ s : String, (defaultBuiltInParsers .kString).map (fun p => p s)
        = some (.ok (.vString s)))
    ∧ (∀ n : Int, -128 ≤ n → n < 128 →
        (defaultBuiltInParsers .kInt8).map (fun p => p (goFormatInt n))
          = some (.ok (.vInt n)))
    ∧ (∀ n : Int, -32768 ≤ n → n < 32768 →
        (defaultBuiltInParsers .kInt16).map (fun p => p (goFormatInt n))
          = some (.ok (.vInt n)))
    ∧ (∀ n : Int, -2147483648 ≤ n → n < 2147483648 →
        (defaultBuiltInParsers .kInt32).map (fun p => p (goFormatInt n))
          = some (.ok (.vInt n)))
    ∧ (∀ n : Int, -9223372036854775808 ≤ n → n < 9223372036854775808 →
        (defaultBuiltInParsers .kInt64).map (fun p => p (goFormatInt n))
          = some (.ok (.vInt n)))
    ∧ (∀ n : Int, -2147483648 ≤ n → n < 2147483648 →
        (defaultBuiltInParsers .kInt).map (fun p => p (goFormatInt n))
          = some (.ok (.vInt n)))
    ∧ (∀ n : Nat, n < 256 →
        (defaultBuiltInParsers .kUint8).map (fun p => p (goFormatNatS n))
          = some (.ok (.vInt n)))
    ∧ (∀ n : Nat, n < 65536 →
        (defaultBuiltInParsers .kUint16).map (fun p => p (goFormatNatS n))
          = some (.ok (.vInt n)))
    ∧ (∀ n : Nat, n < 4294967296 →
        (defaultBuiltInParsers .kUint32).map (fun p => p (goFormatNatS n))
          = some (.ok (.vInt n)))
    ∧ (∀ n : Nat, n < 18446744073709551616 →
        (defaultBuiltInParsers .kUint64).map (fun p => p (goFormatNatS n))
          = some (.ok (.vInt n)))
    ∧ (∀ n : Nat, n < 4294967296 →
        (defaultBuiltInParsers .kUint).map (fun p => p (goFormatNatS n))
          = some (.ok (.vInt n))) := by
  have hint : ∀ (w : Nat) (n : Int), -(2 ^ (w - 1) : Int) ≤ n → n ≤ 2 ^ (w - 1) - 1 →
      goParseInt (goFormatInt n) w = some n := fun w n hlo hhi =>
    goParseInt_goFormatInt hlo hhi
  have huint : ∀ (w : Nat) (n : Nat), n ≤ 2 ^ w - 1 →
      goParseUint (goFormatNatS n) w = some n := fun w n h =>
    goParseUint_goFormatNat h
  refine ⟨?_, ?_, ?_, ?_, ?_, ?_, ?_, ?_, ?_, ?_, ?_, ?_⟩
  · intro b; cases b <;> rfl
  · intro s; rfl
  · intro n hlo hhi
    have := hint 8 n (by norm_num; omega) (by norm_num; omega)
    simp [defaultBuiltInParsers, this]
  · intro n hlo hhi
    have := hint 16 n (by norm_num; omega) (by norm_num; omega)
    simp [defaultBuiltInParsers, this]
  · intro n hlo hhi
    have := hint 32 n (by norm_num; omega) (by norm_num; omega)
    simp [defaultBuiltInParsers, this]
  · intro n hlo hhi
    have := hint 64 n (by norm_num; omega) (by norm_num; omega)
    simp [defaultBuiltInParsers, this]
  · intro n hlo hhi
    have := hint 32 n (by norm_num; omega) (by norm_num; omega)
    simp [defaultBuiltInParsers, this]
  · intro n h
    have := huint 8 n (by norm_num; omega)
    simp [defaultBuiltInParsers, this]
  · intro n h
    have := huint 16 n (by norm_num; omega)
    simp [defaultBuiltInParsers, this]
  · intro n h
    have := huint 32 n (by norm_num; omega)
    simp [defaultBuiltInParsers, this]
  · intro n h
    have := huint 64 n (by norm_num; omega)
    simp [defaultBuiltInParsers, this]
  · intro n h
    have := huint 32 n (by norm_num; omega)
    simp [defaultBuiltInParsers, this]

/-- Witness for C6 as amended: the canonical formatting of `int` value 42
and of `-42` parse back to themselves through the machine-width entry. -/
theorem c6_witness :
    (defaultBuiltInParsers .kInt).map (fun p => p (goFormatInt 42))
        = some (.ok (.vInt 42))
    ∧ (defaultBuiltInParsers .kInt8).map (fun p => p (goFormatInt (-42)))
        = some (.ok (.vInt (-42))) :=
  ⟨c6_builtin_round_trip.2.2.2.2.2.2.1 42 (by norm_num) (by norm_num),
    c6_builtin_round_trip.2.2.1 (-42) (by norm_num) (by norm_num)⟩

/-! ## C5: slice-of-struct discovery -/

/-- The counting loop stops exactly at the first gap, given enough fuel:
if index `c + k` has no matching key and every index strictly between `c`
and `c + k` has one, the loop started at `c` returns `c + k`. -/
theorem sliceCountLoop_eq (environments : List String) (pfx : String) :
    ∀ (k fuel c : Nat), k < fuel →
    anyIdxMatch environments pfx (c + k) = false →
    (∀ j, j < k → anyIdxMatch environments pfx (c + j) = true) →
    sliceCountLoop environments pfx fuel c = c + k := by
  intro k
  induction k with
  | zero =>
    intro fuel c hfuel hgap _hall
    match fuel, hfuel with
    | fuel + 1, _ =>
      rw [Nat.add_zero] at hgap
      simp [sliceCountLoop, hgap]
  | succ k ih =>
    intro fuel c hfuel hgap hall
    match fuel, hfuel with
    | fuel + 1, _ =>
      have h0 : anyIdxMatch environments pfx c = true := by
        have := hall 0 (by omega)
        simpa using this
      simp only [sliceCountLoop, h0, if_true]
      have hrec := ih fuel (c + 1) (by omega)
        (by rw [show c + 1 + k = c + (k + 1) by omega]; exact hgap)
        (fun j hj => by
          rw [show c + 1 + j = c + (j + 1) by omega]
          exact hall (j + 1) (by omega))
      rw [hrec]
      omega

/-- A digit run followed by `'_'` that is a prefix of another such
packet determines the run. -/
theorem digitRun_underscore_aux {u w : List Char}
    (hw : w.all isDigitCh = true)
    (h : u ++ ['_'] <+: w ++ ['_']) : u = w := by
  obtain ⟨t, ht⟩ := h
  rcases t with _ | ⟨c, t⟩
  · rw [List.append_nil] at ht
    exact List.append_left_injective ['_'] ht
  · exfalso
    have hlen : u.length + 1 + (t.length + 1) = w.length + 1 := by
      have := congrArg List.length ht
      simp at this
      omega
    have hult : u.length < w.length := by omega
    have hidx : ((u ++ ['_']) ++ (c :: t))[u.length]? = some '_' := by
      rw [List.getElem?_append_left (by simp)]
      simp
    rw [ht, List.getElem?_append_left hult] at hidx
    have hmem : '_' ∈ w := by
      have := List.getElem?_eq_some.mp hidx
      obtain ⟨hl, hget⟩ := this
      exact hget ▸ List.getElem_mem hl
    have := List.all_eq_true.mp hw '_' hmem
    exact absurd this (by decide)

/-- Two index-qualified prefixes of the same key carry the same index:
`<pfx><i>_` and `<pfx><j>_` are incomparable for `i ≠ j`. -/
theorem idxPrefix_inj (pfx : String) {i j : Nat} {s : String}
    (hi : goHasPrefix s (idxPrefix pfx i) = true)
    (hj : goHasPrefix s (idxPrefix pfx j) = true) : i = j := by
  unfold goHasPrefix at hi hj
  rw [List.isPrefixOf_iff_prefix] at hi hj
  have hdata : ∀ n : Nat, (idxPrefix pfx n).data
      = pfx.data ++ (goFormatNat n ++ ['_']) := by
    intro n
    show (pfx ++ goFormatNatS n ++ "_").data = _
    rw [String.data_append, String.data_append]
    simp [goFormatNatS]
  rw [hdata i] at hi
  rw [hdata j] at hj
  have hfmt : goFormatNat i = goFormatNat j := by
    rcases List.prefix_or_prefix_of_prefix hi hj with h | h
    · exact digitRun_underscore_aux (goFormatNat_all_digits j)
        ((List.prefix_append_right_inj pfx.data).mp h)
    · exact (digitRun_underscore_aux (goFormatNat_all_digits i)
        ((List.prefix_append_right_inj pfx.data).mp h)).symm
  calc i = digitsVal (goFormatNat i) := (digitsVal_goFormatNat i).symm
    _ = digitsVal (goFormatNat j) := by rw [hfmt]
    _ = j := digitsVal_goFormatNat j

/-- Among the indices `0 … |environments|` some index has no matching
key: each consumed index needs its own key (`idxPrefix_inj`), and there
are only `|environments|` keys. -/
theorem anyIdxMatch_gap_exists (environments : List String) (pfx : String) :
    ∃ k, k ≤ environments.length ∧ anyIdxMatch environments pfx k = false := by
  by_contra hcon
  push_neg at hcon
  have hall : ∀ k, k ≤ environments.length → anyIdxMatch environments pfx k = true := by
    intro k hk
    have := hcon k hk
    simpa using this
  have hw : ∀ k, k ≤ environments.length →
      ∃ s, s ∈ environments ∧ goHasPrefix s (idxPrefix pfx k) = true := by
    intro k hk
    have := hall k hk
    simpa [anyIdxMatch, List.any_eq_true] using this
  classical
  let f : Nat → String := fun k =>
    if h : k ≤ environments.length then (hw k h).choose else ""
  have hf : ∀ k, k ≤ environments.length →
      f k ∈ environments ∧ goHasPrefix (f k) (idxPrefix pfx k) = true := by
    intro k hk
    have := (hw k hk).choose_spec
    simpa [f, hk] using this
  have hcard : environments.toFinset.card < (Finset.range (environments.length + 1)).card := by
    have := List.toFinset_card_le (l := environments)
    simp only [Finset.card_range]
    omega
  have hmaps : ∀ k ∈ Finset.range (environments.length + 1), f k ∈ environments.toFinset := by
    intro k hk
    rw [List.mem_toFinset]
    exact (hf k (by simpa [Nat.lt_succ_iff] using Finset.mem_range.mp hk)).1
  obtain ⟨i, hi, j, hj, hne, heq⟩ :=
    Finset.exists_ne_map_eq_of_card_lt_of_maps_to hcard hmaps
  apply hne
  have hi2 := (hf i (by simpa [Nat.lt_succ_iff] using Finset.mem_range.mp hi)).2
  have hj2 := (hf j (by simpa [Nat.lt_succ_iff] using Finset.mem_range.mp hj)).2
  rw [heq] at hi2
  exact idxPrefix_inj pfx hi2 hj2

/-- C5.  Slice-of-struct assembly: under nested prefix `ITEMS_` with keys
`ITEMS_0_NAME=a` and `ITEMS_1_NAME=b`, the counter probes indices 0, 1
and stops at the first gap (2), and the bound slice is the two-element
sequence `[{Name:"a"}, {Name:"b"}]`; when no environment key carries the
prefix, the slice field is left unchanged; and in general the count it
uses is exactly the first index whose index-qualified prefix no
environment key carries. -/
theorem c5_slice_of_struct_discovery :
    (doParseSlice noTU [] elemZeroItems optsItems {}).1 = []
    ∧ (doParseSlice noTU [] elemZeroItems optsItems {}).2.1
        = [[⟨sfName, .vString "a"⟩], [⟨sfName, .vString "b"⟩]]
    ∧ sliceCountLoop ["ITEMS_0_NAME", "ITEMS_1_NAME"] "ITEMS_" 3 0 = 2
    ∧ (∀ (tuReg : GoType → Option ParserF) (ref : List GoStruct) (elemZero : GoStruct)
        (opts : Options) (st : BindState),
        (opts.Environment.map Prod.fst).filter
            (fun environment => goHasPrefix environment
              (if opts.Prefix ≠ "" ∧ ¬ (goHasSuffix opts.Prefix "_") then opts.Prefix ++ "_"
                else opts.Prefix)) = [] →
        doParseSlice tuReg ref elemZero opts st = ([], ref, st))
    ∧ ∀ (environments : List String) (pfx : String),
        ∃ n, sliceCountLoop environments pfx (environments.length + 1) 0 = n
          ∧ anyIdxMatch environments pfx n = false
          ∧ ∀ m, m < n → anyIdxMatch environments pfx m = true := by
  refine ⟨rfl, rfl, rfl, ?_, ?_⟩
  · intro tuReg ref elemZero opts st h
    by_cases hc : opts.Prefix ≠ "" ∧ ¬ (goHasSuffix opts.Prefix "_")
    · rw [if_pos hc] at h
      simp only [doParseSlice, if_pos hc]
      simp [h]
    · rw [if_neg hc] at h
      simp only [doParseSlice, if_neg hc]
      simp [h]
  · intro environments pfx
    obtain ⟨kw, hkle, hkgap⟩ := anyIdxMatch_gap_exists environments pfx
    have hex : ∃ k, anyIdxMatch environments pfx k = false := ⟨kw, hkgap⟩
    refine ⟨Nat.find hex, ?_, Nat.find_spec hex, fun m hm => ?_⟩
    · have hle : Nat.find hex ≤ kw := Nat.find_min' hex hkgap
      have := sliceCountLoop_eq environments pfx (Nat.find hex)
        (environments.length + 1) 0 (by omega)
        (by simpa using Nat.find_spec hex)
        (fun j hj => by
          have := Nat.find_min hex hj
          simpa using this)
      simpa using this
    · have := Nat.find_min hex hm
      simpa using this

/-- Witness for C5's unchanged-slice component: prefix `ITEMS_` with an
environment carrying no matching key leaves the pre-existing slice
untouched. -/
theorem c5_witness :
    doParseSlice noTU [[⟨sfName, .vString "kept"⟩]] elemZeroItems
        { Environment := [("OTHER", "x")], Prefix := "ITEMS_" } {}
      = ([], [[⟨sfName, .vString "kept"⟩]], {}) :=
  c5_slice_of_struct_discovery.2.2.2.1 noTU [[⟨sfName, .vString "kept"⟩]] elemZeroItems
    { Environment := [("OTHER", "x")], Prefix := "ITEMS_" } {} (by rfl)

end EnvSpec
